import Mathlib

/-!
Verification of the indicator computation pipeline of the Cryptocdashboard
repository (src/Crypto.py).  The pipeline enriches an OHLCV candle series
with SMA/EMA/RSI/MACD/Bollinger columns and classifies the latest row.
The arithmetic of the indicator columns is performed by the `ta` library,
which is not part of the repository sources; those algorithms are modelled
from the specification (§4.1–4.4 of spec.md).  The classification of the
latest row (RSI zone, MACD bias, price-vs-SMA20 bias, Bollinger band
position, lines 282–297 of src/Crypto.py) is embedded from the source,
including Python / IEEE-754 comparison semantics for NaN (an undefined
indicator value compares false against any threshold).

Values are rationals; an undefined entry (NaN in the pandas frame) is
`Option.none`.  The Bollinger standard deviation needs a real square root,
so the upper/lower bands live in `ℝ`.
-/

namespace Crypto

/-- The look-back window of values ending at index `i`:
`close[i+1-w .. i]` (shorter near the head of the series). -/
def winAt (close : List ℚ) (w i : ℕ) : List ℚ :=
  (close.take (i + 1)).drop (i + 1 - w)

/-- Modelled from the spec: `SMA(series, window)` (§4.1), the arithmetic mean
of `close[i-window+1..i]` for `i ≥ window-1`, undefined before that.
The source (src/Crypto.py line 119–120) obtains it from
`ta.trend.sma_indicator`, which is not part of the repository. -/
def SMA (close : List ℚ) (w i : ℕ) : Option ℚ :=
  if w ≤ i + 1 ∧ i < close.length then
    some ((winAt close w i).sum / w)
  else none

/-- One step of exponential smoothing with factor `α = 2/(w+1)`:
`c·α + prev·(1-α)`. -/
def emaStep (w : ℕ) (prev c : ℚ) : ℚ :=
  c * (2 / (w + 1)) + prev * (1 - 2 / (w + 1))

/-- Modelled from the spec: `EMA(series, window)` (§4.1).  Seed at index
`window-1` is the SMA over the first window; afterwards
`EMA[i] = close[i]·α + EMA[i-1]·(1-α)` with `α = 2/(window+1)`; undefined
before the seed.  The source (src/Crypto.py line 121) obtains it from
`ta.trend.ema_indicator`, which is not part of the repository. -/
def EMA (close : List ℚ) (w : ℕ) : ℕ → Option ℚ
  | 0 => if w = 1 ∧ 0 < close.length then SMA close w 0 else none
  | i + 1 =>
    if close.length ≤ i + 1 ∨ w = 0 then none
    else if i + 2 < w then none
    else if i + 2 = w then SMA close w (i + 1)
    else (EMA close w i).bind fun prev =>
      (close.getD (i + 1) 0 |> emaStep w prev |> some)

/-- Signed price delta `Δ[i] = close[i] - close[i-1]` (meaningful for
`1 ≤ i < length`). -/
def delta (close : List ℚ) (i : ℕ) : ℚ :=
  close.getD i 0 - close.getD (i - 1) 0

/-- Per-step gain `max(Δ, 0)`. -/
def gain (close : List ℚ) (i : ℕ) : ℚ := max (delta close i) 0

/-- Per-step loss `max(-Δ, 0)`. -/
def loss (close : List ℚ) (i : ℕ) : ℚ := max (-(delta close i)) 0

/-- Simple mean of the first `w` per-step values `f 1 .. f w` (the RSI seed). -/
def seedAvg (f : ℕ → ℚ) (w : ℕ) : ℚ :=
  ((List.range w).map fun j => f (j + 1)).sum / w

/-- One Wilder smoothing step: `(prev·(w-1) + cur) / w`. -/
def wilder (w : ℕ) (prev cur : ℚ) : ℚ :=
  (prev * ((w : ℚ) - 1) + cur) / w

/-- Wilder running average of `f`, `k` steps after the seed at index `w`. -/
def wilderAvgFrom (f : ℕ → ℚ) (w : ℕ) : ℕ → ℚ
  | 0 => seedAvg f w
  | k + 1 => wilder w (wilderAvgFrom f w k) (f (w + k + 1))

/-- Modelled from the spec: Wilder average gain at index `i ≥ w` (§4.2). -/
def avgGain (close : List ℚ) (w i : ℕ) : ℚ :=
  wilderAvgFrom (gain close) w (i - w)

/-- Modelled from the spec: Wilder average loss at index `i ≥ w` (§4.2). -/
def avgLoss (close : List ℚ) (w i : ℕ) : ℚ :=
  wilderAvgFrom (loss close) w (i - w)

/-- Modelled from the spec: `RSI` with Wilder smoothing (§4.2); defined for
`w ≤ i < length`; `RSI = 100 - 100/(1+RS)` with `RS = avgGain/avgLoss`,
`RSI = 100` when `avgLoss = 0 < avgGain`, `RSI = 50` when both averages are
zero.  The source (src/Crypto.py line 124) obtains it from
`ta.momentum.rsi`, which is not part of the repository. -/
def RSI (close : List ℚ) (w i : ℕ) : Option ℚ :=
  if 0 < w ∧ w ≤ i ∧ i < close.length then
    some (if avgLoss close w i = 0 then (if 0 < avgGain close w i then 100 else 50)
          else 100 - 100 / (1 + avgGain close w i / avgLoss close w i))
  else none

/-- Modelled from the spec: the MACD line, fast EMA(12) minus slow EMA(26)
(§4.3).  The source (src/Crypto.py lines 127–128) obtains it from
`ta.trend.MACD`, which is not part of the repository. -/
def MACDline (close : List ℚ) (i : ℕ) : Option ℚ :=
  match EMA close 12 i, EMA close 26 i with
  | some f, some s => some (f - s)
  | _, _ => none

/-- The defined values of the MACD line as a series of their own: with the
default windows the line is defined from index 25 on, so entry `k` of this
list is the MACD value at series index `k + 25`. -/
def macdList (close : List ℚ) : List ℚ :=
  (List.range (close.length - 25)).map fun k => (MACDline close (k + 25)).getD 0

/-- Modelled from the spec: the MACD signal line, the EMA(9) of the MACD
line itself (§4.3), hence defined from index 33 on.  The source
(src/Crypto.py line 129) obtains it from `ta.trend.MACD`, which is not part
of the repository. -/
def MACD_Signal (close : List ℚ) (i : ℕ) : Option ℚ :=
  if 25 ≤ i ∧ i < close.length then EMA (macdList close) 9 (i - 25) else none

/-- Modelled from the spec: the MACD histogram `MACD - MACD_Signal` (§4.3).
The source (src/Crypto.py line 130) obtains it from `ta.trend.MACD`, which
is not part of the repository. -/
def MACD_Hist (close : List ℚ) (i : ℕ) : Option ℚ :=
  match MACDline close i, MACD_Signal close i with
  | some m, some s => some (m - s)
  | _, _ => none

/-- Modelled from the spec: population variance of `close[i-w+1..i]`
(the square of `BB_StdDev`, §4.4). -/
def bbVar (close : List ℚ) (w i : ℕ) : ℚ :=
  ((winAt close w i).map fun x => (x - (winAt close w i).sum / w) ^ 2).sum / w

/-- Modelled from the spec: Bollinger middle band, the SMA(20) (§4.4).
The source (src/Crypto.py line 136) obtains it from
`ta.volatility.BollingerBands`, which is not part of the repository. -/
def BB_Middle (close : List ℚ) (i : ℕ) : Option ℚ := SMA close 20 i

/-- Modelled from the spec: Bollinger upper band
`BB_Middle + 2·BB_StdDev` (§4.4), with `BB_StdDev` the population standard
deviation of the last 20 closes.  Real-valued because of the square root.
The source (src/Crypto.py line 134) obtains it from
`ta.volatility.BollingerBands`, which is not part of the repository. -/
noncomputable def BB_Upper (close : List ℚ) (i : ℕ) : Option ℝ :=
  if 20 ≤ i + 1 ∧ i < close.length then
    some (((winAt close 20 i).sum / 20 : ℚ) + 2 * Real.sqrt (bbVar close 20 i))
  else none

/-- Modelled from the spec: Bollinger lower band `BB_Middle - 2·BB_StdDev`
(§4.4).  The source (src/Crypto.py line 135) obtains it from
`ta.volatility.BollingerBands`, which is not part of the repository. -/
noncomputable def BB_Lower (close : List ℚ) (i : ℕ) : Option ℝ :=
  if 20 ≤ i + 1 ∧ i < close.length then
    some (((winAt close 20 i).sum / 20 : ℚ) - 2 * Real.sqrt (bbVar close 20 i))
  else none

/-- One OHLCV candle row of the dataframe (src/Crypto.py lines 35–43);
`openP` stands for the `open` column, a reserved word in Lean. -/
structure Candle where
  timestamp : ℚ
  openP : ℚ
  high : ℚ
  low : ℚ
  close : ℚ
  volume : ℚ
  deriving DecidableEq, Inhabited, Repr

/-- One row of the enriched dataframe returned by
`calculate_technical_indicators`: the original candle plus the indicator
columns added at lines 119–136 of src/Crypto.py. -/
structure EnrichedRow where
  candle : Candle
  SMA_20 : Option ℚ
  SMA_50 : Option ℚ
  EMA_20 : Option ℚ
  RSI : Option ℚ
  MACD : Option ℚ
  MACD_Signal : Option ℚ
  MACD_Hist : Option ℚ
  BB_Upper : Option ℝ
  BB_Middle : Option ℚ
  BB_Lower : Option ℝ
  deriving Inhabited

/-- Row `i` of the enriched dataframe. -/
noncomputable def mkRow (df : List Candle) (i : ℕ) : EnrichedRow :=
  let closes := df.map Candle.close
  { candle := df.getD i default
    SMA_20 := SMA closes 20 i
    SMA_50 := SMA closes 50 i
    EMA_20 := EMA closes 20 i
    RSI := RSI closes 14 i
    MACD := MACDline closes i
    MACD_Signal := MACD_Signal closes i
    MACD_Hist := MACD_Hist closes i
    BB_Upper := BB_Upper closes i
    BB_Middle := BB_Middle closes i
    BB_Lower := BB_Lower closes i }

/-- Function `calculate_technical_indicators` (src/Crypto.py lines 116–138): the
candle dataframe enriched with the indicator columns, index-aligned with
the input. -/
noncomputable def calculate_technical_indicators (df : List Candle) : List EnrichedRow :=
  (List.range df.length).map (mkRow df)

/-! ### Classification of the latest row (src/Crypto.py lines 282–297)

The latest row's indicator cells may be NaN (undefined, `none` here).  In
Python a comparison against NaN is false, so the conditional expressions at
lines 283, 287 and 291 fall through to their else-branches.  `nanLT`/`nanGT`
embed exactly that comparison semantics. -/

/-- Python `a < b` on possibly-NaN values: false whenever a side is NaN. -/
def nanLT (a b : Option ℚ) : Bool :=
  match a, b with
  | some x, some y => decide (x < y)
  | _, _ => false

/-- Python `a > b` on possibly-NaN values: false whenever a side is NaN. -/
def nanGT (a b : Option ℚ) : Bool :=
  match a, b with
  | some x, some y => decide (x > y)
  | _, _ => false

/-- RSI zone labels (🔴 overbought / 🟢 oversold / ⚪ neutral at line 283). -/
inductive RsiZone where
  | overbought
  | oversold
  | neutral
  deriving DecidableEq, Repr

/-- MACD bias labels (🔴 bearish / 🟢 bullish at line 287). -/
inductive MacdBias where
  | bearish
  | bullish
  deriving DecidableEq, Repr

/-- Price-vs-SMA20 trend labels (🔴 below / 🟢 above at line 291). -/
inductive TrendBias where
  | below
  | above
  deriving DecidableEq, Repr

/-- Expression `rsi_color` (src/Crypto.py line 283):
`"🔴" if latest['RSI'] > 70 else "🟢" if latest['RSI'] < 30 else "⚪"`. -/
def rsi_color (r : Option ℚ) : RsiZone :=
  if nanGT r (some 70) then RsiZone.overbought
  else if nanLT r (some 30) then RsiZone.oversold
  else RsiZone.neutral

/-- Expression `macd_signal` (src/Crypto.py line 287):
`"🔴" if latest['MACD'] < latest['MACD_Signal'] else "🟢"`. -/
def macd_signal (m s : Option ℚ) : MacdBias :=
  if nanLT m s then MacdBias.bearish else MacdBias.bullish

/-- Expression `price_sma20` (src/Crypto.py line 291):
`"🔴" if latest['close'] < latest['SMA_20'] else "🟢"`. -/
def price_sma20 (c : ℚ) (sma : Option ℚ) : TrendBias :=
  if nanLT (some c) sma then TrendBias.below else TrendBias.above

/-- Expression `bb_position` (src/Crypto.py lines 295–297):
`(latest['close'] - latest['BB_Lower']) / (latest['BB_Upper'] - latest['BB_Lower'])`
on the latest row.  A NaN operand or a `0/0` propagates NaN (`none`); when
the band width is zero the numerator is provably zero as well
(`bb_position_zero_bandwidth`), so `none` on a zero denominator is the
IEEE-754 behaviour of this expression. -/
noncomputable def bb_position (close : List ℚ) : Option ℝ :=
  match close.getLast?, BB_Upper close (close.length - 1),
        BB_Lower close (close.length - 1) with
  | some c, some u, some l =>
      if u - l = 0 then none else some (((c : ℝ) - l) / (u - l))
  | _, _, _ => none

/-! ### Window helper lemmas -/

lemma getD_eq_zero_of_le (l : List ℚ) {k : ℕ} (h : l.length ≤ k) : l.getD k 0 = 0 := by
  simp [List.getD_eq_getD_get?, List.getElem?_eq_none h]

lemma winAt_length (close : List ℚ) (w i : ℕ) (h1 : w ≤ i + 1) (h2 : i < close.length) :
    (winAt close w i).length = w := by
  simp only [winAt, List.length_drop, List.length_take]
  omega

lemma winAt_getElem (close : List ℚ) (w i : ℕ) (h1 : w ≤ i + 1) (h2 : i < close.length)
    (k : ℕ) (hk : k < w) :
    (winAt close w i).getD k 0 = close.getD (i + 1 - w + k) 0 := by
  have hlen : (winAt close w i).length = w := winAt_length close w i h1 h2
  have hk1 : k < (winAt close w i).length := by omega
  have hidx : i + 1 - w + k < close.length := by omega
  rw [List.getD_eq_getElem _ _ hk1, List.getD_eq_getElem _ _ hidx]
  simp only [winAt]
  rw [List.getElem_drop, List.getElem_take]

lemma winAt_eq_map (close : List ℚ) (w i : ℕ) (h1 : w ≤ i + 1) (h2 : i < close.length) :
    winAt close w i = (List.range w).map fun k => close.getD (i + 1 - w + k) 0 := by
  apply List.ext_getElem
  · simp [winAt_length close w i h1 h2]
  · intro k hw1 hw2
    have hk : k < w := by simpa using hw2
    have h3 := winAt_getElem close w i h1 h2 k hk
    rw [List.getD_eq_getElem _ _ hw1] at h3
    have hidx : i + 1 - w + k < close.length := by omega
    rw [h3]
    simp [List.getD_eq_getElem _ _ hidx]

lemma list_range_map_sum (f : ℕ → ℚ) (n : ℕ) :
    ((List.range n).map f).sum = ∑ k ∈ Finset.range n, f k := by
  induction n with
  | zero => simp
  | succ n ih => rw [List.range_succ, Finset.sum_range_succ, ← ih]; simp

lemma winAt_sum (close : List ℚ) (w i : ℕ) (h1 : w ≤ i + 1) (h2 : i < close.length) :
    (winAt close w i).sum = ∑ j ∈ Finset.Icc (i + 1 - w) i, close.getD j 0 := by
  rw [winAt_eq_map close w i h1 h2, list_range_map_sum]
  rw [← Nat.Ico_succ_right, Finset.sum_Ico_eq_sum_range]
  have hc : i + 1 - (i + 1 - w) = w := by omega
  rw [hc]

/-! ### EMA structure lemmas -/

lemma EMA_zero (close : List ℚ) (w : ℕ) :
    EMA close w 0 = if w = 1 ∧ 0 < close.length then SMA close w 0 else none := rfl

lemma EMA_succ (close : List ℚ) (w i : ℕ) :
    EMA close w (i + 1) = if close.length ≤ i + 1 ∨ w = 0 then none
      else if i + 2 < w then none
      else if i + 2 = w then SMA close w (i + 1)
      else (EMA close w i).bind fun prev =>
        some (emaStep w prev (close.getD (i + 1) 0)) := rfl

lemma EMA_isSome (close : List ℚ) (w : ℕ) (hw : 1 ≤ w) :
    ∀ i, i < close.length → ((EMA close w i).isSome = true ↔ w - 1 ≤ i) := by
  intro i
  induction i with
  | zero =>
    intro hlen
    rw [EMA_zero]
    by_cases h1 : w = 1
    · rw [if_pos ⟨h1, hlen⟩, SMA, if_pos ⟨by omega, hlen⟩]
      simp
      omega
    · rw [if_neg (by tauto)]
      simp
      omega
  | succ i ih =>
    intro hlen
    rw [EMA_succ, if_neg (show ¬(close.length ≤ i + 1 ∨ w = 0) by omega)]
    by_cases h2 : i + 2 < w
    · rw [if_pos h2]
      simp
      omega
    · rw [if_neg h2]
      by_cases h3 : i + 2 = w
      · rw [if_pos h3, SMA, if_pos ⟨by omega, by omega⟩]
        simp
        omega
      · rw [if_neg h3]
        have hiw : w - 1 ≤ i := by omega
        obtain ⟨prev, hprev⟩ := Option.isSome_iff_exists.mp ((ih (by omega)).mpr hiw)
        rw [hprev]
        simp
        omega

lemma EMA_seed (close : List ℚ) (w : ℕ) (hw : 1 ≤ w) (hlen : w - 1 < close.length) :
    EMA close w (w - 1) = SMA close w (w - 1) := by
  obtain (rfl | ⟨n, rfl⟩) : w = 1 ∨ ∃ n, w = n + 2 := by
    rcases w with _ | _ | n
    · omega
    · exact Or.inl rfl
    · exact Or.inr ⟨n, rfl⟩
  · rw [EMA_zero, if_pos ⟨rfl, by simpa using hlen⟩]
  · have h21 : n + 2 - 1 = n + 1 := rfl
    rw [h21] at hlen ⊢
    rw [EMA_succ, if_neg (by omega), if_neg (by omega), if_pos rfl]

lemma EMA_rec (close : List ℚ) (w i : ℕ) (hw : 1 ≤ w) (hi : w ≤ i) (hlen : i < close.length) :
    EMA close w i = (EMA close w (i - 1)).bind fun prev =>
      some (emaStep w prev (close.getD i 0)) := by
  obtain ⟨j, rfl⟩ : ∃ j, i = j + 1 := ⟨i - 1, by omega⟩
  have h : j + 1 - 1 = j := rfl
  rw [h, EMA_succ, if_neg (by omega), if_neg (by omega), if_neg (by omega)]

/-- C9: `SMA(series, window)[i]` is the arithmetic mean of
`close[i-window+1..i]` for every `i ≥ window-1` in range, and is undefined
for `i < window-1`; on a series of exactly `window` candles the SMA is
defined only at the last index. -/
theorem sma_window_mean (close : List ℚ) (w : ℕ) (hw : 1 ≤ w) :
    (∀ i, i < close.length →
      (w - 1 ≤ i → SMA close w i =
        some ((∑ j ∈ Finset.Icc (i + 1 - w) i, close.getD j 0) / w)) ∧
      (i < w - 1 → SMA close w i = none)) ∧
    (close.length = w →
      (SMA close w (w - 1)).isSome = true ∧ ∀ i, i < w - 1 → SMA close w i = none) := by
  have main : ∀ i, i < close.length →
      (w - 1 ≤ i → SMA close w i =
        some ((∑ j ∈ Finset.Icc (i + 1 - w) i, close.getD j 0) / w)) ∧
      (i < w - 1 → SMA close w i = none) := by
    intro i hlen
    constructor
    · intro hdef
      have h1 : w ≤ i + 1 := by omega
      rw [SMA, if_pos ⟨h1, hlen⟩, winAt_sum close w i h1 hlen]
    · intro hundef
      rw [SMA, if_neg]
      omega
  refine ⟨main, fun hlw => ⟨?_, fun i hi => (main i (by omega)).2 hi⟩⟩
  rw [((main (w - 1) (by omega)).1 (le_refl _))]
  rfl

/-- C3: for `window ≥ 1`, `EMA(series, window)[i]` is defined iff
`i ≥ window-1` (within range); the first defined value, at index
`window-1`, equals `SMA(series, window)[window-1]`; and each subsequent
value obeys `EMA[i] = close[i]·α + EMA[i-1]·(1-α)` with `α = 2/(window+1)`. -/
theorem ema_seed_and_recurrence (close : List ℚ) (w : ℕ) (hw : 1 ≤ w) :
    (∀ i, i < close.length → ((EMA close w i).isSome = true ↔ w - 1 ≤ i)) ∧
    (w - 1 < close.length → EMA close w (w - 1) = SMA close w (w - 1)) ∧
    (∀ i, w ≤ i → i < close.length →
      EMA close w i = some (close.getD i 0 * (2 / ((w : ℚ) + 1)) +
        ((EMA close w (i - 1)).getD 0) * (1 - 2 / ((w : ℚ) + 1)))) := by
  refine ⟨EMA_isSome close w hw, EMA_seed close w hw, ?_⟩
  intro i hi hlen
  have hsome : (EMA close w (i - 1)).isSome = true :=
    (EMA_isSome close w hw (i - 1) (by omega)).mpr (by omega)
  obtain ⟨prev, hprev⟩ := Option.isSome_iff_exists.mp hsome
  rw [EMA_rec close w i hw hi hlen, hprev]
  simp [emaStep]

/-- Witness for `sma_window_mean` at the series `[4, 8, 6]` with window 3. -/
theorem sma_window_mean_witness :
    (SMA [4, 8, 6] 3 2).isSome = true ∧ SMA ([4, 8, 6] : List ℚ) 3 0 = none :=
  ⟨((sma_window_mean [4, 8, 6] 3 (by decide)).2 rfl).1,
   ((sma_window_mean [4, 8, 6] 3 (by decide)).2 rfl).2 0 (by decide)⟩

/-- Witness for `ema_seed_and_recurrence` at the series `[4, 8, 6]` with
window 2. -/
theorem ema_seed_and_recurrence_witness :
    EMA [4, 8, 6] 2 1 = SMA [4, 8, 6] 2 1 ∧
    EMA ([4, 8, 6] : List ℚ) 2 2 = some 6 := by
  have h := ema_seed_and_recurrence ([4, 8, 6] : List ℚ) 2 (by decide)
  refine ⟨h.2.1 (by decide), ?_⟩
  rw [h.2.2 2 (by decide) (by decide), h.2.1 (by decide)]
  norm_num [SMA, winAt]

/-! ### RSI lemmas -/

lemma seedAvg_nonneg (f : ℕ → ℚ) (w : ℕ) (hf : ∀ j, 0 ≤ f j) : 0 ≤ seedAvg f w := by
  apply div_nonneg _ (by positivity)
  apply List.sum_nonneg
  intro x hx
  obtain ⟨j, _, rfl⟩ := List.mem_map.mp hx
  exact hf _

lemma wilderAvgFrom_nonneg (f : ℕ → ℚ) (w : ℕ) (hw : 1 ≤ w) (hf : ∀ j, 0 ≤ f j) :
    ∀ k, 0 ≤ wilderAvgFrom f w k := by
  intro k
  induction k with
  | zero => exact seedAvg_nonneg f w hf
  | succ k ih =>
    show 0 ≤ wilder w (wilderAvgFrom f w k) (f (w + k + 1))
    unfold wilder
    have hw1 : (0 : ℚ) ≤ (w : ℚ) - 1 := by
      have : (1 : ℚ) ≤ (w : ℚ) := by exact_mod_cast hw
      linarith
    exact div_nonneg (add_nonneg (mul_nonneg ih hw1) (hf _)) (by positivity)

lemma gain_nonneg (close : List ℚ) (i : ℕ) : 0 ≤ gain close i := le_max_right _ _

lemma loss_nonneg (close : List ℚ) (i : ℕ) : 0 ≤ loss close i := le_max_right _ _

lemma avgGain_nonneg (close : List ℚ) (w i : ℕ) (hw : 1 ≤ w) : 0 ≤ avgGain close w i :=
  wilderAvgFrom_nonneg _ w hw (gain_nonneg close) _

lemma avgLoss_nonneg (close : List ℚ) (w i : ℕ) (hw : 1 ≤ w) : 0 ≤ avgLoss close w i :=
  wilderAvgFrom_nonneg _ w hw (loss_nonneg close) _

lemma wilderAvgFrom_zero (f : ℕ → ℚ) (w : ℕ) :
    ∀ k, (∀ j, 1 ≤ j → j ≤ w + k → f j = 0) → wilderAvgFrom f w k = 0 := by
  intro k
  induction k with
  | zero =>
    intro hf
    show seedAvg f w = 0
    unfold seedAvg
    have : ((List.range w).map fun j => f (j + 1)) = (List.range w).map fun _ => (0 : ℚ) := by
      apply List.map_congr_left
      intro j hj
      exact hf (j + 1) (by omega) (by have := List.mem_range.mp hj; omega)
    rw [this]
    simp
  | succ k ih =>
    intro hf
    show wilder w (wilderAvgFrom f w k) (f (w + k + 1)) = 0
    rw [ih (fun j h1 h2 => hf j h1 (by omega)), hf (w + k + 1) (by omega) (by omega)]
    unfold wilder
    simp

lemma delta_replicate (n : ℕ) (c : ℚ) (j : ℕ) (hj : 1 ≤ j) (hn : j < n) :
    delta (List.replicate n c) j = 0 := by
  unfold delta
  rw [List.getD_eq_getElem _ _ (by simpa using hn),
      List.getD_eq_getElem _ _ (by simp; omega)]
  simp

/-- On a constant-price series both Wilder averages vanish, so RSI takes the
flat-market value 50 at every defined index. -/
lemma rsi_replicate (n w : ℕ) (c : ℚ) (hw : 1 ≤ w) (i : ℕ) (h1 : w ≤ i) (h2 : i < n) :
    RSI (List.replicate n c) w i = some 50 := by
  have hlen : i < (List.replicate n c).length := by simpa using h2
  have hg : avgGain (List.replicate n c) w i = 0 := by
    apply wilderAvgFrom_zero
    intro j hj1 hj2
    unfold gain
    rw [delta_replicate n c j hj1 (by omega)]
    simp
  have hl : avgLoss (List.replicate n c) w i = 0 := by
    apply wilderAvgFrom_zero
    intro j hj1 hj2
    unfold loss
    rw [delta_replicate n c j hj1 (by omega)]
    simp
  rw [RSI, if_pos ⟨hw, h1, hlen⟩, hl, hg]
  norm_num

/-- C4: if the Wilder average loss is zero and the average gain positive,
RSI is 100; if both vanish, RSI is 50; and on a constant series of 30
candles at close 100 every defined RSI value is 50. -/
theorem rsi_degenerate_conventions :
    (∀ (close : List ℚ) (w i : ℕ), 1 ≤ w → w ≤ i → i < close.length →
      avgLoss close w i = 0 → 0 < avgGain close w i → RSI close w i = some 100) ∧
    (∀ (close : List ℚ) (w i : ℕ), 1 ≤ w → w ≤ i → i < close.length →
      avgLoss close w i = 0 → avgGain close w i = 0 → RSI close w i = some 50) ∧
    (∀ i, 14 ≤ i → i < 30 → RSI (List.replicate 30 (100 : ℚ)) 14 i = some 50) := by
  refine ⟨?_, ?_, fun i h1 h2 => rsi_replicate 30 14 100 (by omega) i h1 h2⟩
  · intro close w i hw hi hlen hl hg
    rw [RSI, if_pos ⟨hw, hi, hlen⟩, if_pos hl, if_pos hg]
  · intro close w i hw hi hlen hl hg
    rw [RSI, if_pos ⟨hw, hi, hlen⟩, if_pos hl, if_neg (by rw [hg]; norm_num)]

/-- C8: every defined RSI value lies in `[0, 100]`. -/
theorem rsi_bounded (close : List ℚ) (i : ℕ) (h : (RSI close 14 i).isSome = true) :
    0 ≤ (RSI close 14 i).getD 0 ∧ (RSI close 14 i).getD 0 ≤ 100 := by
  by_cases hcond : 0 < 14 ∧ 14 ≤ i ∧ i < close.length
  · rw [RSI, if_pos hcond]
    have hg : 0 ≤ avgGain close 14 i := avgGain_nonneg close 14 i (by omega)
    have hl : 0 ≤ avgLoss close 14 i := avgLoss_nonneg close 14 i (by omega)
    by_cases hl0 : avgLoss close 14 i = 0
    · rw [if_pos hl0]
      by_cases hg0 : 0 < avgGain close 14 i
      · rw [if_pos hg0]; norm_num
      · rw [if_neg hg0]; norm_num
    · rw [if_neg hl0]
      have hlpos : 0 < avgLoss close 14 i := lt_of_le_of_ne hl (Ne.symm hl0)
      have hquot : 0 ≤ avgGain close 14 i / avgLoss close 14 i :=
        div_nonneg hg hl
      have h1 : (1 : ℚ) ≤ 1 + avgGain close 14 i / avgLoss close 14 i := by linarith
      have h3 : 100 / (1 + avgGain close 14 i / avgLoss close 14 i) ≤ 100 :=
        div_le_self (by norm_num) h1
      have h4 : 0 < 100 / (1 + avgGain close 14 i / avgLoss close 14 i) :=
        div_pos (by norm_num) (by linarith)
      simp only [Option.getD_some]
      constructor <;> linarith
  · rw [RSI, if_neg hcond] at h
    simp at h

/-- Witness for `rsi_degenerate_conventions`: the strictly rising series
`1..15` has zero average loss and positive average gain at index 14, and
the constant series gives RSI 50. -/
theorem rsi_degenerate_conventions_witness :
    RSI [1, 2, 3, 4, 5, 6, 7, 8, 9, 10, 11, 12, 13, 14, 15] 14 14 = some 100 ∧
    RSI (List.replicate 30 (100 : ℚ)) 14 14 = some 50 := by
  constructor
  · apply rsi_degenerate_conventions.1 _ 14 14 (by norm_num) (by norm_num) (by norm_num)
    · show wilderAvgFrom _ 14 (14 - 14) = 0
      norm_num [wilderAvgFrom, seedAvg, List.range_succ, loss, delta]
    · show 0 < wilderAvgFrom _ 14 (14 - 14)
      norm_num [wilderAvgFrom, seedAvg, List.range_succ, gain, delta]
  · exact rsi_degenerate_conventions.2.2 14 (by norm_num) (by norm_num)

/-- Witness for `rsi_bounded` on the rising series `1..15`. -/
theorem rsi_bounded_witness :
    0 ≤ (RSI [1, 2, 3, 4, 5, 6, 7, 8, 9, 10, 11, 12, 13, 14, 15] 14 14).getD 0 ∧
    (RSI [1, 2, 3, 4, 5, 6, 7, 8, 9, 10, 11, 12, 13, 14, 15] 14 14).getD 0 ≤ 100 :=
  rsi_bounded [1, 2, 3, 4, 5, 6, 7, 8, 9, 10, 11, 12, 13, 14, 15] 14 (by decide)

/-! ### MACD and Bollinger theorems -/

/-- C5: wherever the MACD line and the signal line are both defined, the
histogram equals their difference exactly, the MACD line being the fast
EMA(12) minus the slow EMA(26) and the signal the EMA(9) of the MACD
line. -/
theorem macd_hist_identity (close : List ℚ) (i : ℕ)
    (h1 : (MACDline close i).isSome = true) (h2 : (MACD_Signal close i).isSome = true) :
    MACD_Hist close i = some ((MACDline close i).getD 0 - (MACD_Signal close i).getD 0) ∧
    (EMA close 12 i).isSome = true ∧ (EMA close 26 i).isSome = true ∧
    MACDline close i = some ((EMA close 12 i).getD 0 - (EMA close 26 i).getD 0) ∧
    MACD_Signal close i = EMA (macdList close) 9 (i - 25) := by
  obtain ⟨m, hm⟩ := Option.isSome_iff_exists.mp h1
  obtain ⟨s, hs⟩ := Option.isSome_iff_exists.mp h2
  rcases h12 : EMA close 12 i with _ | f
  · rw [MACDline, h12] at hm
    cases hm
  rcases h26 : EMA close 26 i with _ | g
  · rw [MACDline, h12, h26] at hm
    cases hm
  have hm' : MACDline close i = some (f - g) := by rw [MACDline, h12, h26]
  have hcond : 25 ≤ i ∧ i < close.length := by
    by_contra hc
    rw [MACD_Signal, if_neg hc] at hs
    cases hs
  refine ⟨?_, rfl, rfl, by rw [hm']; simp, ?_⟩
  · simp only [MACD_Hist, hm', hs, Option.getD_some]
  · rw [MACD_Signal, if_pos hcond]

/-- C6: wherever the Bollinger bands are defined (window 20, `k = 2`),
`BB_Middle` is the SMA(20), the upper and lower bands sit at
`±2·σ` around it with `σ` the population standard deviation of the last 20
closes, and `BB_Lower ≤ BB_Middle ≤ BB_Upper`. -/
theorem bollinger_band_order (close : List ℚ) (i : ℕ) (h1 : 19 ≤ i) (h2 : i < close.length) :
    ∃ (m : ℚ) (u l : ℝ), BB_Middle close i = SMA close 20 i ∧
      BB_Middle close i = some m ∧ BB_Upper close i = some u ∧ BB_Lower close i = some l ∧
      u = (m : ℝ) + 2 * Real.sqrt (bbVar close 20 i) ∧
      l = (m : ℝ) - 2 * Real.sqrt (bbVar close 20 i) ∧
      l ≤ (m : ℝ) ∧ (m : ℝ) ≤ u := by
  have hc : 20 ≤ i + 1 ∧ i < close.length := ⟨by omega, h2⟩
  have hs : 0 ≤ Real.sqrt (bbVar close 20 i) := Real.sqrt_nonneg _
  refine ⟨(winAt close 20 i).sum / 20, _, _, rfl, ?_, ?_, ?_, rfl, rfl, ?_, ?_⟩
  · rw [BB_Middle, SMA, if_pos hc]
    norm_num
  · rw [BB_Upper, if_pos hc]
  · rw [BB_Lower, if_pos hc]
  · linarith
  · linarith

/-- Witness for `macd_hist_identity` at index 33 of the series `1..34`. -/
theorem macd_hist_identity_witness :
    MACD_Hist [1, 2, 3, 4, 5, 6, 7, 8, 9, 10, 11, 12, 13, 14, 15, 16, 17, 18, 19, 20,
        21, 22, 23, 24, 25, 26, 27, 28, 29, 30, 31, 32, 33, 34] 33 =
      some ((MACDline [1, 2, 3, 4, 5, 6, 7, 8, 9, 10, 11, 12, 13, 14, 15, 16, 17, 18,
          19, 20, 21, 22, 23, 24, 25, 26, 27, 28, 29, 30, 31, 32, 33, 34] 33).getD 0 -
        (MACD_Signal [1, 2, 3, 4, 5, 6, 7, 8, 9, 10, 11, 12, 13, 14, 15, 16, 17, 18,
          19, 20, 21, 22, 23, 24, 25, 26, 27, 28, 29, 30, 31, 32, 33, 34] 33).getD 0) :=
  (macd_hist_identity _ 33 (by decide) (by decide)).1

/-- Witness for `bollinger_band_order` at the last index of a 20-candle
series. -/
theorem bollinger_band_order_witness :
    ∃ (m : ℚ) (u l : ℝ),
      BB_Middle [1, 2, 3, 4, 5, 6, 7, 8, 9, 10, 11, 12, 13, 14, 15, 16, 17, 18, 19, 20]
          19 = SMA [1, 2, 3, 4, 5, 6, 7, 8, 9, 10, 11, 12, 13, 14, 15, 16, 17, 18, 19, 20]
          20 19 ∧
      BB_Middle [1, 2, 3, 4, 5, 6, 7, 8, 9, 10, 11, 12, 13, 14, 15, 16, 17, 18, 19, 20]
          19 = some m ∧
      BB_Upper [1, 2, 3, 4, 5, 6, 7, 8, 9, 10, 11, 12, 13, 14, 15, 16, 17, 18, 19, 20]
          19 = some u ∧
      BB_Lower [1, 2, 3, 4, 5, 6, 7, 8, 9, 10, 11, 12, 13, 14, 15, 16, 17, 18, 19, 20]
          19 = some l ∧
      u = (m : ℝ) + 2 * Real.sqrt (bbVar
          [1, 2, 3, 4, 5, 6, 7, 8, 9, 10, 11, 12, 13, 14, 15, 16, 17, 18, 19, 20] 20 19) ∧
      l = (m : ℝ) - 2 * Real.sqrt (bbVar
          [1, 2, 3, 4, 5, 6, 7, 8, 9, 10, 11, 12, 13, 14, 15, 16, 17, 18, 19, 20] 20 19) ∧
      l ≤ (m : ℝ) ∧ (m : ℝ) ≤ u :=
  bollinger_band_order
    ([1, 2, 3, 4, 5, 6, 7, 8, 9, 10, 11, 12, 13, 14, 15, 16, 17, 18, 19, 20] : List ℚ)
    19 (by decide) (by decide)

/-! ### Zero band width (C1) -/

lemma sum_sq_nonneg (l : List ℚ) (m : ℚ) : 0 ≤ (l.map fun x => (x - m) ^ 2).sum := by
  apply List.sum_nonneg
  intro x hx
  obtain ⟨y, _, rfl⟩ := List.mem_map.mp hx
  positivity

lemma sum_sq_zero (l : List ℚ) (m : ℚ) (h : (l.map fun x => (x - m) ^ 2).sum = 0) :
    ∀ x ∈ l, x = m := by
  induction l with
  | nil => simp
  | cons a t ih =>
    rw [List.map_cons, List.sum_cons] at h
    have h1 : (0 : ℚ) ≤ (a - m) ^ 2 := sq_nonneg _
    have h2 : (0 : ℚ) ≤ (t.map fun x => (x - m) ^ 2).sum := sum_sq_nonneg t m
    have ha : (a - m) ^ 2 = 0 := by linarith
    have ht : (t.map fun x => (x - m) ^ 2).sum = 0 := by linarith
    intro x hx
    rcases List.mem_cons.mp hx with rfl | hxt
    · have := pow_eq_zero_iff (n := 2) (by norm_num) |>.mp ha
      linarith [this]
    · exact ih ht x hxt

lemma bbVar_nonneg (close : List ℚ) (w i : ℕ) : 0 ≤ bbVar close w i := by
  unfold bbVar
  exact div_nonneg (sum_sq_nonneg _ _) (by positivity)

lemma bbVar_zero_all_eq (close : List ℚ) (w i : ℕ) (hw : 0 < w)
    (h : bbVar close w i = 0) :
    ∀ x ∈ winAt close w i, x = (winAt close w i).sum / w := by
  unfold bbVar at h
  have hsum : ((winAt close w i).map
      fun x => (x - (winAt close w i).sum / w) ^ 2).sum = 0 := by
    rcases div_eq_zero_iff.mp h with h0 | h0
    · exact h0
    · exfalso
      have : (w : ℚ) ≠ 0 := by positivity
      exact this h0
  exact sum_sq_zero _ _ hsum

/-- C1: whenever the latest Bollinger values are defined with zero band
width (`BB_Upper = BB_Lower`), the band-position expression of
src/Crypto.py lines 295–297 evaluates to the undefined marker
(`0.0/0.0 = NaN` in the source, `none` here) rather than a number, and in
this situation the latest close provably equals the lower band, so the
numerator of the source expression is zero as well: the computation never
raises. -/
theorem bb_position_zero_bandwidth (close : List ℚ) (h20 : 20 ≤ close.length)
    (hzw : BB_Upper close (close.length - 1) = BB_Lower close (close.length - 1)) :
    bb_position close = none ∧
    ∃ (c : ℚ) (l : ℝ), close.getLast? = some c ∧
      BB_Lower close (close.length - 1) = some l ∧ (c : ℝ) = l := by
  set i := close.length - 1 with hi
  have hc : 20 ≤ i + 1 ∧ i < close.length := ⟨by omega, by omega⟩
  have hU : BB_Upper close i =
      some (((winAt close 20 i).sum / 20 : ℚ) + 2 * Real.sqrt (bbVar close 20 i)) := by
    rw [BB_Upper, if_pos hc]
  have hL : BB_Lower close i =
      some (((winAt close 20 i).sum / 20 : ℚ) - 2 * Real.sqrt (bbVar close 20 i)) := by
    rw [BB_Lower, if_pos hc]
  rw [hU, hL] at hzw
  have hsig : Real.sqrt (bbVar close 20 i) = 0 := by
    have := Option.some.inj hzw
    linarith [this]
  have hvarR : ((bbVar close 20 i : ℚ) : ℝ) = 0 := by
    have hnn : (0 : ℝ) ≤ ((bbVar close 20 i : ℚ) : ℝ) := by
      exact_mod_cast bbVar_nonneg close 20 i
    exact (Real.sqrt_eq_zero hnn).mp hsig
  have hvar : bbVar close 20 i = 0 := by exact_mod_cast hvarR
  -- the latest close is the last element of the 20-window, hence the mean
  have hlen : (winAt close 20 i).length = 20 := winAt_length close 20 i hc.1 hc.2
  have hlast : close.getLast? = some (close.getD i 0) := by
    rw [List.getLast?_eq_getElem?, List.getD_eq_getElem _ _ (show i < close.length by omega),
      List.getElem?_eq_getElem (show close.length - 1 < close.length by omega)]
  have hwin19 : (winAt close 20 i).getD 19 0 = close.getD i 0 := by
    rw [winAt_getElem close 20 i hc.1 hc.2 19 (by omega)]
    have : i + 1 - 20 + 19 = i := by omega
    rw [this]
  have hmem : close.getD i 0 ∈ winAt close 20 i := by
    rw [← hwin19, List.getD_eq_getElem _ _ (show 19 < (winAt close 20 i).length by omega)]
    exact List.getElem_mem _
  have hmean : close.getD i 0 = (winAt close 20 i).sum / 20 := by
    have := bbVar_zero_all_eq close 20 i (by norm_num) hvar (close.getD i 0) hmem
    simpa using this
  refine ⟨?_, close.getD i 0, _, hlast, hL, ?_⟩
  · rw [bb_position, ← hi]
    rw [hlast, hU, hL, hsig]
    norm_num
  · rw [hsig, hmean]
    norm_num

/-- Witness for `bb_position_zero_bandwidth` on a constant 20-candle
series, whose band width is zero. -/
theorem bb_position_zero_bandwidth_witness :
    bb_position (List.replicate 20 (5 : ℚ)) = none := by
  have hvar : bbVar (List.replicate 20 (5 : ℚ)) 20 19 = 0 := by
    unfold bbVar winAt
    norm_num [List.sum_replicate]
  have hc : 20 ≤ 19 + 1 ∧ 19 < (List.replicate 20 (5 : ℚ)).length := by
    constructor <;> simp
  have hzw : BB_Upper (List.replicate 20 (5 : ℚ)) ((List.replicate 20 (5 : ℚ)).length - 1) =
      BB_Lower (List.replicate 20 (5 : ℚ)) ((List.replicate 20 (5 : ℚ)).length - 1) := by
    show BB_Upper (List.replicate 20 (5 : ℚ)) 19 = BB_Lower (List.replicate 20 (5 : ℚ)) 19
    rw [BB_Upper, BB_Lower, if_pos hc, if_pos hc, hvar]
    norm_num
  exact (bb_position_zero_bandwidth (List.replicate 20 (5 : ℚ)) (by simp) hzw).1

/-! ### Classification of undefined indicator values (C2) -/

lemma EMA_eq_none (close : List ℚ) (w i : ℕ) (hw : 1 ≤ w) (hlen : i < close.length)
    (hi : i < w - 1) : EMA close w i = none := by
  rcases h' : EMA close w i with _ | v
  · rfl
  · have := (EMA_isSome close w hw i hlen).mp (by rw [h']; rfl)
    omega

/-- Counterexample to C2: on a single-candle series every indicator is
undefined for lack of history, yet the classification expressions of
src/Crypto.py lines 283–291 do not report "undefined": the NaN comparisons
evaluate to false, so the RSI zone comes out as the definite label
`neutral`, the MACD bias as `bullish` and the trend bias as `above`. -/
theorem classification_undefined_counterexample :
    RSI [(100 : ℚ)] 14 0 = none ∧
    rsi_color (RSI [(100 : ℚ)] 14 0) = RsiZone.neutral ∧
    MACDline [(100 : ℚ)] 0 = none ∧
    MACD_Signal [(100 : ℚ)] 0 = none ∧
    macd_signal (MACDline [(100 : ℚ)] 0) (MACD_Signal [(100 : ℚ)] 0) = MacdBias.bullish ∧
    SMA [(100 : ℚ)] 20 0 = none ∧
    price_sma20 100 (SMA [(100 : ℚ)] 20 0) = TrendBias.above := by
  refine ⟨?_, ?_, ?_, ?_, ?_, ?_, ?_⟩ <;> decide

/-- C2 as amended: on any series too short for the look-back windows the
indicator values themselves are undefined and the numeric cells (band
position) propagate the undefined marker without raising, but the emoji
classifications fall through their false NaN comparisons to the definite
default labels: `neutral` for the RSI zone, `bullish` for the MACD bias
and `above` for the trend bias. -/
theorem classification_nan_defaults (df : List Candle) (h1 : 0 < df.length)
    (h2 : df.length ≤ 14) :
    RSI (df.map Candle.close) 14 (df.length - 1) = none ∧
    rsi_color (RSI (df.map Candle.close) 14 (df.length - 1)) = RsiZone.neutral ∧
    MACDline (df.map Candle.close) (df.length - 1) = none ∧
    macd_signal (MACDline (df.map Candle.close) (df.length - 1))
      (MACD_Signal (df.map Candle.close) (df.length - 1)) = MacdBias.bullish ∧
    SMA (df.map Candle.close) 20 (df.length - 1) = none ∧
    price_sma20 ((df.map Candle.close).getD (df.length - 1) 0)
      (SMA (df.map Candle.close) 20 (df.length - 1)) = TrendBias.above ∧
    bb_position (df.map Candle.close) = none := by
  set cl := df.map Candle.close with hcl
  have hlen : cl.length = df.length := by simp [hcl]
  have hi : df.length - 1 < cl.length := by omega
  have hrsi : RSI cl 14 (df.length - 1) = none := by
    rw [RSI, if_neg]
    omega
  have h26 : EMA cl 26 (df.length - 1) = none :=
    EMA_eq_none cl 26 (df.length - 1) (by omega) hi (by omega)
  have hmacd : MACDline cl (df.length - 1) = none := by
    rcases h12 : EMA cl 12 (df.length - 1) with _ | v <;>
      simp [MACDline, h12, h26]
  have hsma : SMA cl 20 (df.length - 1) = none := by
    rw [SMA, if_neg]
    omega
  have hbbu : BB_Upper cl (cl.length - 1) = none := by
    rw [BB_Upper, if_neg]
    omega
  have hbb : bb_position cl = none := by
    rw [bb_position, hbbu]
    rcases hl : cl.getLast? with _ | c <;>
      rcases hlo : BB_Lower cl (cl.length - 1) with _ | l <;> rfl
  refine ⟨hrsi, by rw [hrsi]; rfl, hmacd, by rw [hmacd]; rfl, hsma, by rw [hsma]; rfl, hbb⟩

/-- Witness for `classification_nan_defaults` on a one-candle series. -/
theorem classification_nan_defaults_witness :
    RSI ([(⟨0, 100, 100, 100, 100, 0⟩ : Candle)].map Candle.close) 14 0 = none ∧
    rsi_color (RSI ([(⟨0, 100, 100, 100, 100, 0⟩ : Candle)].map Candle.close) 14 0) =
      RsiZone.neutral := by
  have h := classification_nan_defaults [(⟨0, 100, 100, 100, 100, 0⟩ : Candle)]
    (by decide) (by decide)
  exact ⟨h.1, h.2.1⟩

/-! ### Shape of the enriched frame (C7) -/

lemma calc_getD (df : List Candle) (i : ℕ) (hi : i < df.length) :
    (calculate_technical_indicators df).getD i default = mkRow df i := by
  rw [calculate_technical_indicators]
  have hlen : i < ((List.range df.length).map (mkRow df)).length := by simpa using hi
  rw [List.getD_eq_getElem _ _ hlen]
  simp

/-- C7: the enriched frame has exactly one row per input candle,
row `i` being derived from position `i`, and the candle data inside each
row is the input candle unchanged (`calculate_technical_indicators` only
adds columns; it never alters `timestamp`/`open`/`high`/`low`/`close`/
`volume`). -/
theorem calc_indicators_shape (df : List Candle) :
    (calculate_technical_indicators df).length = df.length ∧
    ∀ i, i < df.length →
      ((calculate_technical_indicators df).getD i default).candle = df.getD i default ∧
      ((calculate_technical_indicators df).getD i default).SMA_20 =
        SMA (df.map Candle.close) 20 i ∧
      ((calculate_technical_indicators df).getD i default).RSI =
        RSI (df.map Candle.close) 14 i := by
  refine ⟨by simp [calculate_technical_indicators], fun i hi => ?_⟩
  rw [calc_getD df i hi]
  exact ⟨rfl, rfl, rfl⟩

/-- Witness for `calc_indicators_shape` on a one-candle series. -/
theorem calc_indicators_shape_witness :
    ((calculate_technical_indicators [(⟨7, 1, 3, 0, 2, 9⟩ : Candle)]).getD 0
        default).candle = [(⟨7, 1, 3, 0, 2, 9⟩ : Candle)].getD 0 default :=
  ((calc_indicators_shape [(⟨7, 1, 3, 0, 2, 9⟩ : Candle)]).2 0 (by decide)).1

/-! ### Causality (C10) -/

lemma take_agree_get? {α : Type} (l1 l2 : List α) (i : ℕ)
    (h : l1.take (i + 1) = l2.take (i + 1)) (j : ℕ) (hj : j ≤ i) :
    l1[j]? = l2[j]? := by
  have k1 : (l1.take (i + 1))[j]? = l1[j]? := by
    rw [List.getElem?_take, if_pos (show j < i + 1 by omega)]
  have k2 : (l2.take (i + 1))[j]? = l2[j]? := by
    rw [List.getElem?_take, if_pos (show j < i + 1 by omega)]
  rw [← k1, ← k2, h]

lemma take_agree_getD {α : Type} (d : α) (l1 l2 : List α) (i : ℕ)
    (h : l1.take (i + 1) = l2.take (i + 1)) (j : ℕ) (hj : j ≤ i) :
    l1.getD j d = l2.getD j d := by
  simp only [List.getD_eq_getD_get?, List.get?_eq_getElem?]
  rw [take_agree_get? l1 l2 i h j hj]

lemma take_agree_mono {α : Type} (l1 l2 : List α) (i j : ℕ) (hj : j ≤ i)
    (h : l1.take (i + 1) = l2.take (i + 1)) : l1.take (j + 1) = l2.take (j + 1) := by
  have h' := congrArg (List.take (j + 1)) h
  rwa [List.take_take, List.take_take, min_eq_left (show j + 1 ≤ i + 1 by omega)] at h'

lemma winAt_congr (l1 l2 : List ℚ) (w i : ℕ) (h : l1.take (i + 1) = l2.take (i + 1)) :
    winAt l1 w i = winAt l2 w i := by
  unfold winAt
  rw [h]

lemma SMA_causal (l1 l2 : List ℚ) (w i : ℕ) (h1 : i < l1.length) (h2 : i < l2.length)
    (h : l1.take (i + 1) = l2.take (i + 1)) : SMA l1 w i = SMA l2 w i := by
  unfold SMA
  rw [winAt_congr l1 l2 w i h]
  by_cases hw : w ≤ i + 1
  · rw [if_pos ⟨hw, h1⟩, if_pos ⟨hw, h2⟩]
  · rw [if_neg (by tauto), if_neg (by tauto)]

lemma EMA_w0 (close : List ℚ) : ∀ i, EMA close 0 i = none := by
  intro i
  cases i with
  | zero => rw [EMA_zero, if_neg (by simp)]
  | succ i => rw [EMA_succ, if_pos (Or.inr rfl)]

lemma EMA_succ' (close : List ℚ) (w i : ℕ) (hw : w ≠ 0) (hlen : i + 1 < close.length) :
    EMA close w (i + 1) = if i + 2 < w then none
      else if i + 2 = w then SMA close w (i + 1)
      else (EMA close w i).bind fun prev => some (emaStep w prev (close.getD (i + 1) 0)) := by
  rw [EMA_succ, if_neg (by omega)]

lemma EMA_causal (l1 l2 : List ℚ) (w : ℕ) :
    ∀ i, i < l1.length → i < l2.length → l1.take (i + 1) = l2.take (i + 1) →
      EMA l1 w i = EMA l2 w i := by
  intro i
  induction i with
  | zero =>
    intro h1 h2 h
    rw [EMA_zero, EMA_zero]
    by_cases hw : w = 1
    · rw [if_pos ⟨hw, h1⟩, if_pos ⟨hw, h2⟩, SMA_causal l1 l2 w 0 h1 h2 h]
    · rw [if_neg (by tauto), if_neg (by tauto)]
  | succ i ih =>
    intro h1 h2 h
    by_cases hw0 : w = 0
    · subst hw0
      rw [EMA_w0, EMA_w0]
    · rw [EMA_succ' l1 w i hw0 h1, EMA_succ' l2 w i hw0 h2]
      by_cases hlt : i + 2 < w
      · rw [if_pos hlt, if_pos hlt]
      · rw [if_neg hlt, if_neg hlt]
        by_cases heq : i + 2 = w
        · rw [if_pos heq, if_pos heq, SMA_causal l1 l2 w (i + 1) h1 h2 h]
        · rw [if_neg heq, if_neg heq,
            ih (by omega) (by omega) (take_agree_mono l1 l2 (i + 1) i (by omega) h),
            take_agree_getD 0 l1 l2 (i + 1) h (i + 1) (le_refl _)]

lemma delta_congr (l1 l2 : List ℚ) (i j : ℕ) (h : l1.take (i + 1) = l2.take (i + 1))
    (hj : j ≤ i) : delta l1 j = delta l2 j := by
  unfold delta
  rw [take_agree_getD 0 l1 l2 i h j hj, take_agree_getD 0 l1 l2 i h (j - 1) (by omega)]

lemma wilderAvgFrom_congr (f1 f2 : ℕ → ℚ) (w : ℕ) :
    ∀ k, (∀ j, j ≤ w + k → f1 j = f2 j) → wilderAvgFrom f1 w k = wilderAvgFrom f2 w k := by
  intro k
  induction k with
  | zero =>
    intro hf
    show seedAvg f1 w = seedAvg f2 w
    unfold seedAvg
    have hm : (List.range w).map (fun j => f1 (j + 1)) =
        (List.range w).map (fun j => f2 (j + 1)) :=
      List.map_congr_left fun j hj =>
        hf (j + 1) (by have := List.mem_range.mp hj; omega)
    rw [hm]
  | succ k ih =>
    intro hf
    show wilder w (wilderAvgFrom f1 w k) (f1 (w + k + 1)) = _
    rw [ih (fun j hj => hf j (by omega)), hf (w + k + 1) (by omega)]
    rfl

lemma RSI_causal (l1 l2 : List ℚ) (w i : ℕ) (h1 : i < l1.length) (h2 : i < l2.length)
    (h : l1.take (i + 1) = l2.take (i + 1)) : RSI l1 w i = RSI l2 w i := by
  unfold RSI
  by_cases hc : 0 < w ∧ w ≤ i
  · have hg : avgGain l1 w i = avgGain l2 w i := by
      unfold avgGain
      apply wilderAvgFrom_congr
      intro j hj
      unfold gain
      rw [delta_congr l1 l2 i j h (by omega)]
    have hl : avgLoss l1 w i = avgLoss l2 w i := by
      unfold avgLoss
      apply wilderAvgFrom_congr
      intro j hj
      unfold loss
      rw [delta_congr l1 l2 i j h (by omega)]
    have c1 : 0 < w ∧ w ≤ i ∧ i < l1.length := ⟨hc.1, hc.2, h1⟩
    have c2 : 0 < w ∧ w ≤ i ∧ i < l2.length := ⟨hc.1, hc.2, h2⟩
    rw [if_pos c1, if_pos c2, hg, hl]
  · rw [if_neg (by tauto), if_neg (by tauto)]

lemma MACDline_causal (l1 l2 : List ℚ) (i : ℕ) (h1 : i < l1.length) (h2 : i < l2.length)
    (h : l1.take (i + 1) = l2.take (i + 1)) : MACDline l1 i = MACDline l2 i := by
  unfold MACDline
  rw [EMA_causal l1 l2 12 i h1 h2 h, EMA_causal l1 l2 26 i h1 h2 h]

lemma macdList_length (l : List ℚ) : (macdList l).length = l.length - 25 := by
  simp [macdList]

lemma macdList_take_agree (l1 l2 : List ℚ) (i : ℕ) (h1 : i < l1.length)
    (h2 : i < l2.length) (h : l1.take (i + 1) = l2.take (i + 1)) (h25 : 25 ≤ i) :
    (macdList l1).take (i - 25 + 1) = (macdList l2).take (i - 25 + 1) := by
  apply List.ext_getElem
  · simp only [List.length_take, macdList_length]
    omega
  · intro k hk1 hk2
    have hk : k < i - 25 + 1 := by
      simp only [List.length_take] at hk1
      omega
    rw [List.getElem_take, List.getElem_take]
    simp only [macdList, List.getElem_map, List.getElem_range]
    rw [MACDline_causal l1 l2 (k + 25) (by omega) (by omega)
      (take_agree_mono l1 l2 i (k + 25) (by omega) h)]

lemma MACD_Signal_causal (l1 l2 : List ℚ) (i : ℕ) (h1 : i < l1.length)
    (h2 : i < l2.length) (h : l1.take (i + 1) = l2.take (i + 1)) :
    MACD_Signal l1 i = MACD_Signal l2 i := by
  unfold MACD_Signal
  by_cases h25 : 25 ≤ i
  · rw [if_pos ⟨h25, h1⟩, if_pos ⟨h25, h2⟩]
    exact EMA_causal (macdList l1) (macdList l2) 9 (i - 25)
      (by rw [macdList_length]; omega) (by rw [macdList_length]; omega)
      (macdList_take_agree l1 l2 i h1 h2 h h25)
  · rw [if_neg (by tauto), if_neg (by tauto)]

lemma MACD_Hist_causal (l1 l2 : List ℚ) (i : ℕ) (h1 : i < l1.length)
    (h2 : i < l2.length) (h : l1.take (i + 1) = l2.take (i + 1)) :
    MACD_Hist l1 i = MACD_Hist l2 i := by
  unfold MACD_Hist
  rw [MACDline_causal l1 l2 i h1 h2 h, MACD_Signal_causal l1 l2 i h1 h2 h]

lemma bbVar_causal (l1 l2 : List ℚ) (w i : ℕ) (h : l1.take (i + 1) = l2.take (i + 1)) :
    bbVar l1 w i = bbVar l2 w i := by
  unfold bbVar
  rw [winAt_congr l1 l2 w i h]

lemma BB_Upper_causal (l1 l2 : List ℚ) (i : ℕ) (h1 : i < l1.length) (h2 : i < l2.length)
    (h : l1.take (i + 1) = l2.take (i + 1)) : BB_Upper l1 i = BB_Upper l2 i := by
  unfold BB_Upper
  rw [winAt_congr l1 l2 20 i h, bbVar_causal l1 l2 20 i h]
  by_cases hc : 20 ≤ i + 1
  · rw [if_pos ⟨hc, h1⟩, if_pos ⟨hc, h2⟩]
  · rw [if_neg (by tauto), if_neg (by tauto)]

lemma BB_Lower_causal (l1 l2 : List ℚ) (i : ℕ) (h1 : i < l1.length) (h2 : i < l2.length)
    (h : l1.take (i + 1) = l2.take (i + 1)) : BB_Lower l1 i = BB_Lower l2 i := by
  unfold BB_Lower
  rw [winAt_congr l1 l2 20 i h, bbVar_causal l1 l2 20 i h]
  by_cases hc : 20 ≤ i + 1
  · rw [if_pos ⟨hc, h1⟩, if_pos ⟨hc, h2⟩]
  · rw [if_neg (by tauto), if_neg (by tauto)]

/-- C10: every indicator value at position `i` depends only on candles
`0..i`: two candle series agreeing up to position `i` produce identical
enriched rows at `i` (no look-ahead). -/
theorem indicators_causal (df1 df2 : List Candle) (i : ℕ) (h1 : i < df1.length)
    (h2 : i < df2.length) (hagree : df1.take (i + 1) = df2.take (i + 1)) :
    (calculate_technical_indicators df1).getD i default =
      (calculate_technical_indicators df2).getD i default := by
  have hc : (df1.map Candle.close).take (i + 1) = (df2.map Candle.close).take (i + 1) := by
    rw [← List.map_take, ← List.map_take, hagree]
  have hl1 : i < (df1.map Candle.close).length := by simpa using h1
  have hl2 : i < (df2.map Candle.close).length := by simpa using h2
  rw [calc_getD df1 i h1, calc_getD df2 i h2]
  unfold mkRow
  simp only [EnrichedRow.mk.injEq]
  refine ⟨take_agree_getD default df1 df2 i hagree i (le_refl _),
    SMA_causal _ _ 20 i hl1 hl2 hc,
    SMA_causal _ _ 50 i hl1 hl2 hc,
    EMA_causal _ _ 20 i hl1 hl2 hc,
    RSI_causal _ _ 14 i hl1 hl2 hc,
    MACDline_causal _ _ i hl1 hl2 hc,
    MACD_Signal_causal _ _ i hl1 hl2 hc,
    MACD_Hist_causal _ _ i hl1 hl2 hc,
    BB_Upper_causal _ _ i hl1 hl2 hc,
    SMA_causal _ _ 20 i hl1 hl2 hc,
    BB_Lower_causal _ _ i hl1 hl2 hc⟩

/-- Witness for `indicators_causal`: two series that agree at position 0
but differ afterwards give the same row 0. -/
theorem indicators_causal_witness :
    (calculate_technical_indicators [(⟨0, 1, 1, 1, 1, 1⟩ : Candle)]).getD 0 default =
      (calculate_technical_indicators
        [(⟨0, 1, 1, 1, 1, 1⟩ : Candle), (⟨1, 2, 2, 2, 2, 2⟩ : Candle)]).getD 0 default :=
  indicators_causal [(⟨0, 1, 1, 1, 1, 1⟩ : Candle)]
    [(⟨0, 1, 1, 1, 1, 1⟩ : Candle), (⟨1, 2, 2, 2, 2, 2⟩ : Candle)] 0
    (by decide) (by decide) (by decide)

end Crypto
